import Mathlib

/-!
Verification of the solid-grab core: the compile-time JSX tag classifier and
attribute injector (src/vite.ts) and the run-time ancestry resolver
(inspector.ts).  The TypeScript source is shallowly embedded: strings are
`List Char` (JS UTF-16 code units restricted to characters), JS numbers
arising from `parseInt` are `Int`, DOM elements are modelled by the record of
the properties the resolver reads plus the list of ancestors obtained from
the `parentElement` chain.
-/

namespace SolidGrab

/-- `\w` of JS regexes and the `/\w/` tests in `isLikelyJsx`:
ASCII letters, digits and underscore. -/
def isWordChar (c : Char) : Bool := c.isAlphanum || c == '_'

/-- JS regex `\s` / JS string whitespace (`StrWhiteSpaceChar`), as used by
the `\s*` and `(\s|\/?>)` parts of `JSX_OPEN_TAG_RE`, by `String.trim` and
by `parseInt`'s leading-whitespace skipping. -/
def jsSpace (c : Char) : Bool :=
  let n := c.toNat
  n = 9 || n = 10 || n = 11 || n = 12 || n = 13 || n = 32 || n = 160 ||
    n = 0x1680 || (0x2000 ≤ n && n ≤ 0x200A) || n = 0x2028 || n = 0x2029 ||
    n = 0x202F || n = 0x205F || n = 0x3000 || n = 0xFEFF

/-- The whitespace characters `isLikelyJsx` walks back over:
exactly space, tab, newline and carriage return (vite.ts line 65). -/
def isBackWs (c : Char) : Bool := c == ' ' || c == '\t' || c == '\n' || c == '\r'

/-- Decimal digits of a natural number, most significant first; fuel-based
so that it reduces in the kernel.  Mirrors JS `String(n)` (template-literal
stringification) for the non-negative integers the injector produces. -/
def natToDigitsF : Nat → Nat → List Char
  | 0, _ => []
  | fuel + 1, n =>
    if n < 10 then [Nat.digitChar n]
    else natToDigitsF fuel (n / 10) ++ [Nat.digitChar (n % 10)]

def natToDigits (n : Nat) : List Char := natToDigitsF (n + 1) n

/-- JS `String(i)` for an integer value (as produced by `parseInt`). -/
def jsIntToString (i : Int) : List Char :=
  if i < 0 then '-' :: natToDigits i.natAbs else natToDigits i.toNat

/-- Value of a digit string, accumulating left to right, exactly as
`parseInt` does once the digit run is isolated. -/
def digitsVal (l : List Char) : Nat :=
  l.foldl (fun a c => 10 * a + (c.toNat - 48)) 0

/-- ECMA-262 `DecimalDigit`, the digits `parseInt(·, 10)` consumes. -/
def jsDigit (c : Char) : Bool := 48 ≤ c.toNat && c.toNat ≤ 57

/-- The digit-run part of JS `parseInt(s, 10)`: longest prefix of decimal
digits; `NaN` (here `none`) when the prefix is empty.  Trailing
non-digit characters are ignored, per ECMA-262. -/
def parseDigitRun (l : List Char) : Option Nat :=
  let ds := l.takeWhile jsDigit
  if ds = [] then none else some (digitsVal ds)

/-- Sign-and-digits part of JS `parseInt(s, 10)`, applied after the
leading whitespace is skipped. -/
def jsParseIntAux : List Char → Option Int
  | [] => none
  | c :: rest =>
    if c = '-' then (parseDigitRun rest).map (fun n => -(n : Int))
    else if c = '+' then (parseDigitRun rest).map (fun n => (n : Int))
    else (parseDigitRun (c :: rest)).map (fun n => (n : Int))

/-- JS `parseInt(s, 10)`: skip leading whitespace, optional sign, then the
longest decimal-digit prefix; `none` models `NaN`. -/
def jsParseInt (l : List Char) : Option Int :=
  jsParseIntAux (l.dropWhile jsSpace)

/-- JS `String.prototype.split` with a single-character separator.  The
result is always non-empty; on a non-separator head the character is
prepended to the first chunk of the remainder's split. -/
def splitCh (sep : Char) : List Char → List (List Char)
  | [] => [[]]
  | c :: rest =>
    let parts := splitCh sep rest
    if c = sep then [] :: parts
    else (c :: parts.headD []) :: parts.tail

/-- JS `Array.prototype.join` with a single-character separator. -/
def joinCh (sep : Char) : List (List Char) → List Char
  | [] => []
  | [x] => x
  | x :: y :: rest => x ++ sep :: joinCh sep (y :: rest)

/-- `SourceLocation` of types.ts; `line`/`column` are JS numbers produced by
`parseInt`, hence `Int`. -/
structure SourceLocation where
  file : String
  line : Int
  column : Int
deriving DecidableEq, Repr

/-- `parseSourceAttr` of inspector.ts (lines 24-39) on the character list
of a non-null input: falsiness check on the empty string, split on `":"`,
field-count check, `parseInt` of the two popped trailing fields, rejoin
of the remainder, `isNaN` check. -/
def parseSourceAttrL (v : List Char) : Option SourceLocation :=
  if v = [] then none
  else
    let parts := splitCh ':' v
    if parts.length < 3 then none
    else
      let colField := parts.getLastD []
      let parts1 := parts.dropLast
      let lineField := parts1.getLastD []
      let parts2 := parts1.dropLast
      let file := joinCh ':' parts2
      match jsParseInt lineField, jsParseInt colField with
      | some l, some c => some ⟨String.mk file, l, c⟩
      | _, _ => none

/-- `parseSourceAttr(value)`: `null` propagates, otherwise parse the
string's characters. -/
def parseSourceAttr (value : Option String) : Option SourceLocation :=
  match value with
  | none => none
  | some v => parseSourceAttrL v.data

-- ── Ancestry resolver (inspector.ts) ─────────────────────────────────

def ATTR_SOURCE : String := "data-solid-source"
def ATTR_COMPONENT : String := "data-solid-component"

/-- A DOM element, restricted to the properties the resolver reads:
`tagName`, `id`, `className`, `outerHTML` and its attribute map.  The
`parentElement` chain is passed separately as the list of ancestors,
nearest first. -/
structure DomNode where
  tagName : String
  id : String
  className : String
  outerHTML : String
  attrs : List (String × String)
deriving DecidableEq, Repr

/-- `Element.getAttribute`: `null` when the attribute is absent. -/
def getAttribute (n : DomNode) (name : String) : Option String :=
  n.attrs.lookup name

/-- `ComponentInfo` of types.ts. -/
structure ComponentInfo where
  name : String
  location : Option SourceLocation
deriving DecidableEq, Repr

/-- The ancestor walk of `findNearestSource` (inspector.ts lines 46-54) on
the chain `element :: ancestors`.  Note the truthiness test `if (attr)`:
an absent or empty attribute lets the walk continue; any non-empty
attribute terminates it with `parseSourceAttr(attr)`, even when that
parse yields `null`. -/
def srcWalk : List DomNode → Option SourceLocation
  | [] => none
  | n :: rest =>
    match getAttribute n ATTR_SOURCE with
    | some a => if a ≠ "" then parseSourceAttr (some a) else srcWalk rest
    | none => srcWalk rest

def findNearestSource (el : DomNode) (ancestors : List DomNode) : Option SourceLocation :=
  srcWalk (el :: ancestors)

/-- `getElementSource` (inspector.ts lines 59-61): the element's own
attribute only. -/
def getElementSource (el : DomNode) : Option SourceLocation :=
  parseSourceAttr (getAttribute el ATTR_SOURCE)

/-- The ancestor walk of `findNearestComponent` (inspector.ts lines 66-74). -/
def compWalk : List DomNode → Option String
  | [] => none
  | n :: rest =>
    match getAttribute n ATTR_COMPONENT with
    | some a => if a ≠ "" then some a else compWalk rest
    | none => compWalk rest

def findNearestComponent (el : DomNode) (ancestors : List DomNode) : Option String :=
  compWalk (el :: ancestors)

/-- The dedup key `` `${name}:${source?.file}:${source?.line}` `` of
`getComponentChain` (inspector.ts line 90): optional chaining on a null
source stringifies to `"undefined"`, and the column is not part of the
key. -/
def chainKey (name : String) (src : Option SourceLocation) : String :=
  name ++ ":" ++
    (match src with
     | some s => s.file
     | none => "undefined") ++ ":" ++
    (match src with
     | some s => String.mk (jsIntToString s.line)
     | none => "undefined")

/-- The collection loop of `getComponentChain` (inspector.ts lines 80-100);
`seen` models the `Set<string>` of keys, which is never cleared during the
walk. -/
def chainGo : List DomNode → List String → List ComponentInfo
  | [], _ => []
  | n :: rest, seen =>
    match getAttribute n ATTR_COMPONENT with
    | some name =>
      if name ≠ "" then
        let source := getElementSource n
        let key := chainKey name source
        if seen.contains key then chainGo rest seen
        else ⟨name, source⟩ :: chainGo rest (key :: seen)
      else chainGo rest seen
    | none => chainGo rest seen

def getComponentChain (el : DomNode) (ancestors : List DomNode) : List ComponentInfo :=
  chainGo (el :: ancestors) []

-- ── Context formatting (inspector.ts) ────────────────────────────────

/-- JS `String.prototype.trim`. -/
def jsTrim (s : String) : String :=
  String.mk (((s.data.dropWhile jsSpace).reverse.dropWhile jsSpace).reverse)

/-- `getElementSnippet` (inspector.ts lines 107-111): `outerHTML`
truncated to `maxLen` characters with an ellipsis marker. -/
def getElementSnippet (el : DomNode) (maxLen : Nat := 200) : String :=
  let html := el.outerHTML
  if html.data.length ≤ maxLen then html
  else String.mk (html.data.take maxLen) ++ "..."

/-- `getElementSummary` (inspector.ts lines 116-138). -/
def getElementSummary (el : DomNode) : String :=
  let tag := el.tagName.toLower
  let parts : List String := ["<" ++ tag]
  let parts := if el.id ≠ "" then parts ++ ["id=\"" ++ el.id ++ "\""] else parts
  let parts :=
    if el.className ≠ "" then
      let trimmed := jsTrim el.className
      if trimmed.data.length ≤ 80 then parts ++ ["class=\"" ++ trimmed ++ "\""]
      else parts ++ ["class=\"" ++ String.mk (trimmed.data.take 77) ++ "...\""]
    else parts
  let parts :=
    match getAttribute el "data-testid" with
    | some t => if t ≠ "" then parts ++ ["data-testid=\"" ++ t ++ "\""] else parts
    | none => parts
  String.intercalate " " parts ++ ">"

/-- `Omit<GrabbedContext, "formatted">`, the argument of `formatContext`. -/
structure PartialContext where
  element : DomNode
  tagName : String
  elementSource : Option SourceLocation
  components : List ComponentInfo
  timestamp : Nat

/-- The `lines` array built by `formatContext` (inspector.ts lines
144-179) just before `lines.join("\n")`. -/
def formatLines (ctx : PartialContext) : List String :=
  let l1 : List String := ["--- solid-grab context ---", ""]
  let l2 := l1 ++ ["Element: " ++ getElementSummary ctx.element]
  let l3 :=
    match ctx.elementSource with
    | some s =>
      l2 ++ ["Source:  " ++ s.file ++ ":" ++ String.mk (jsIntToString s.line) ++
             ":" ++ String.mk (jsIntToString s.column)]
    | none => l2
  let l4 :=
    if 0 < ctx.components.length then
      l3 ++ ["", "Component tree (innermost → outermost):"] ++
        ctx.components.map (fun comp =>
          let loc :=
            match comp.location with
            | some s => " → " ++ s.file ++ ":" ++ String.mk (jsIntToString s.line) ++
                        ":" ++ String.mk (jsIntToString s.column)
            | none => ""
          "  <" ++ comp.name ++ " />" ++ loc)
    else l3
  let l5 := l4 ++ ["", "HTML:", getElementSnippet ctx.element 500]
  l5 ++ ["", "--- end solid-grab context ---"]

def formatContext (ctx : PartialContext) : String :=
  String.intercalate "\n" (formatLines ctx)

/-- `GrabbedContext` of types.ts. -/
structure GrabbedContext where
  element : DomNode
  tagName : String
  elementSource : Option SourceLocation
  components : List ComponentInfo
  timestamp : Nat
  formatted : String

/-- `inspect` (inspector.ts lines 186-202); `Date.now()` is passed in as
`now`. -/
def inspect (el : DomNode) (ancestors : List DomNode) (now : Nat) : GrabbedContext :=
  let elementSource :=
    match getElementSource el with
    | some s => some s
    | none => findNearestSource el ancestors
  let components := getComponentChain el ancestors
  let pc : PartialContext :=
    ⟨el, el.tagName.toLower, elementSource, components, now⟩
  ⟨el, el.tagName.toLower, elementSource, components, now, formatContext pc⟩

-- ── Tag classifier & injector (vite.ts) ──────────────────────────────

/-- The character class of
`"({[,;:?=!>&|+-*/%^~".includes(ch)` (vite.ts line 79), in source order. -/
def exprOpeners : List Char :=
  ['(', Char.ofNat 123, '[', ',', ';', ':', '?', '=', '!', '>', '&', '|',
   '+', '-', '*', '/', '%', '^', '~']

/-- `JSX_PRECEDING_KEYWORDS` (vite.ts lines 50-52). -/
def JSX_PRECEDING_KEYWORDS : List String :=
  ["return", "yield", "case", "default", "else"]

/-- `isLikelyJsx(code, ltIndex)` (vite.ts lines 63-92): walk backwards from
the `<` over space/tab/newline/CR; classify by the nearest remaining
character: expression-ending tokens `)`, `]`, `"`, `'`, backtick give
`false`; the expression-opening punctuation gives `true`; a word
character collects the full word and tests membership in the keyword
set; start of file and any other character give `true`.  The backward
walk over `code[0..ltIndex)` is the traversal of the reversed prefix. -/
def classifyScan : List Char → Bool
  | [] => true
  | c :: rest =>
    if c == ')' || c == ']' || c == '"' || c == Char.ofNat 39 || c == Char.ofNat 96 then
      false
    else if exprOpeners.contains c then true
    else if isWordChar c then
      JSX_PRECEDING_KEYWORDS.contains
        (String.mk (((c :: rest).takeWhile isWordChar).reverse))
    else true

def isLikelyJsx (code : List Char) (ltIndex : Nat) : Bool :=
  classifyScan (((code.take ltIndex).reverse).dropWhile isBackWs)

/-- `[A-Z_a-z]`, the first character of a tag name in `JSX_OPEN_TAG_RE`. -/
def isTagStart (c : Char) : Bool := c.isAlpha || c = '_'

/-- `[\w.:-]`, the remaining tag-name characters in `JSX_OPEN_TAG_RE`. -/
def isTagChar (c : Char) : Bool := isWordChar c || c = '.' || c = ':' || c = '-'

/-- The three capture groups of a successful `JSX_OPEN_TAG_RE` match:
`lead` is group 1 (`<` plus following whitespace), `tagName` group 2,
`tail` group 3 (one whitespace character, `>` or `/>`). -/
structure TagMatch where
  lead : List Char
  tagName : List Char
  tail : List Char
deriving DecidableEq, Repr

/-- One attempt of `JSX_OPEN_TAG_RE` = `(?<!\w)(<\s*)([A-Z_a-z][\w.:-]*)(\s|\/?>)`
at position `p`.  The character classes of the three groups are mutually
disjoint, so the greedy `\s*` and `[\w.:-]*` runs never backtrack and the
match is the straightforward longest-run scan below. -/
def matchAt (code : List Char) (p : Nat) : Option TagMatch :=
  if 0 < p ∧ isWordChar (code.getD (p - 1) ' ') = true then none
  else
    match code.drop p with
    | [] => none
    | c0 :: afterLt =>
      if c0 = '<' then
        let ws := afterLt.takeWhile jsSpace
        match afterLt.dropWhile jsSpace with
        | [] => none
        | c :: afterC =>
          if isTagStart c then
            let tagRest := afterC.takeWhile isTagChar
            match afterC.dropWhile isTagChar with
            | [] => none
            | d :: afterD =>
              if jsSpace d then some ⟨'<' :: ws, c :: tagRest, [d]⟩
              else if d = '>' then some ⟨'<' :: ws, c :: tagRest, ['>']⟩
              else if d = '/' then
                match afterD with
                | [] => none
                | e :: _ =>
                  if e = '>' then some ⟨'<' :: ws, c :: tagRest, ['/', '>']⟩ else none
              else none
          else none
      else none

/-- Total length of a match, `match[0].length`. -/
def TagMatch.len (m : TagMatch) : Nat :=
  m.lead.length + m.tagName.length + m.tail.length

/-- `COMPONENT_NAME_RE = /^[A-Z]|[.]/` (vite.ts line 47). -/
def isComponentName (tag : List Char) : Bool :=
  (match tag with
   | c :: _ => c.isUpper
   | [] => false) || tag.contains '.'

/-- The plugin options relevant to `transformJsx`. -/
structure TransformOpts where
  jsxLocation : Bool
  componentLocation : Bool
deriving DecidableEq, Repr

/-- The value written into `data-solid-source`:
`` `${shortFile}:${line}:${col}` `` (vite.ts line 148). -/
def formatSourceValue (file : List Char) (line col : Nat) : List Char :=
  file ++ ':' :: natToDigits line ++ ':' :: natToDigits col

/-- The `attrs` array built for one confirmed match (vite.ts lines
145-153): the location attribute when `jsxLocation` is set, then the
component attribute when `componentLocation` is set and the tag name is
component-like. -/
def buildAttrs (opts : TransformOpts) (shortFile tag : List Char) (line col : Nat) :
    List (List Char) :=
  (if opts.jsxLocation then
    [String.data "data-solid-source=\"" ++ formatSourceValue shortFile line col ++ ['"']]
   else []) ++
  (if opts.componentLocation && isComponentName tag then
    [String.data "data-solid-component=\"" ++ tag ++ ['"']]
   else [])

/-- The `lineStarts` table (vite.ts lines 100-103): offset 0 plus the
offset after every newline. -/
def lineStartsAux : List Char → Nat → List Nat
  | [], _ => []
  | c :: rest, i =>
    if c = '\n' then (i + 1) :: lineStartsAux rest (i + 1)
    else lineStartsAux rest (i + 1)

def lineStarts (code : List Char) : List Nat := 0 :: lineStartsAux code 0

/-- The binary search of `getLineCol` (vite.ts lines 106-114), fuel-based:
`lo`/`hi` bracket the answer and `(lo + hi + 1) >> 1` is the upper
midpoint.  The search always finishes within `ls.length` rounds. -/
def bsLineF : Nat → List Nat → Nat → Nat → Nat → Nat
  | 0, _, _, lo, _ => lo
  | fuel + 1, ls, offset, lo, hi =>
    if lo < hi then
      let mid := (lo + hi + 1) / 2
      if ls.getD mid 0 ≤ offset then bsLineF fuel ls offset mid hi
      else bsLineF fuel ls offset lo (mid - 1)
    else lo

/-- `getLineCol(offset)` (vite.ts lines 105-115): 1-based line and column. -/
def getLineCol (ls : List Nat) (offset : Nat) : Nat × Nat :=
  let lo := bsLineF ls.length ls offset 0 (ls.length - 1)
  (lo + 1, offset - ls.getD lo 0 + 1)

/-- `fileId.replace(/^\//, "")` (vite.ts line 118). -/
def shortFileOf : List Char → List Char
  | '/' :: rest => rest
  | l => l

/-- `code.slice(a, b)` for `a ≤ b`. -/
def listSlice (code : List Char) (a b : Nat) : List Char :=
  (code.drop a).take (b - a)

/-- The `while ((match = JSX_OPEN_TAG_RE.exec(code)) !== null)` loop of
`transformJsx` (vite.ts lines 126-168) with the regex engine's own
scan-forward made explicit: `p` is the position the next match attempt
starts at (the regex `lastIndex` after a failed attempt advances by one),
`lastIndex` is the loop's copy pointer, `acc` the `result` string.
Fuel-based so it reduces in the kernel; `p` grows every step, so fuel
`code.length + 2` never runs out. -/
def scanLoopF (code shortFile : List Char) (opts : TransformOpts) (ls : List Nat) :
    Nat → Nat → Nat → List Char → List Char
  | 0, _, lastIndex, acc => acc ++ code.drop lastIndex
  | fuel + 1, p, lastIndex, acc =>
    if code.length < p then acc ++ code.drop lastIndex
    else
      match matchAt code p with
      | none => scanLoopF code shortFile opts ls fuel (p + 1) lastIndex acc
      | some m =>
        let matchEnd := p + m.len
        if !isLikelyJsx code p then
          scanLoopF code shortFile opts ls fuel matchEnd lastIndex acc
        else
          let lc := getLineCol ls p
          let attrs := buildAttrs opts shortFile m.tagName lc.1 lc.2
          if attrs.isEmpty then
            scanLoopF code shortFile opts ls fuel matchEnd matchEnd
              (acc ++ listSlice code lastIndex matchEnd)
          else
            let attrStr := ' ' :: List.intercalate [' '] attrs
            scanLoopF code shortFile opts ls fuel matchEnd matchEnd
              (acc ++ listSlice code lastIndex p ++ m.lead ++ m.tagName ++ attrStr ++ m.tail)

/-- `transformJsx(code, fileId, opts)` (vite.ts lines 94-172). -/
def transformJsx (code fileId : String) (opts : TransformOpts) : String :=
  let cl := code.data
  String.mk (scanLoopF cl (shortFileOf fileId.data) opts (lineStarts cl)
    (cl.length + 2) 0 0 [])

/-- Number of confirmed injection sites: the match sites the loop reaches
that pass `isLikelyJsx` and build a non-empty `attrs` array.  Mirrors the
branching of `scanLoopF` exactly. -/
def injCountF (code shortFile : List Char) (opts : TransformOpts) (ls : List Nat) :
    Nat → Nat → Nat
  | 0, _ => 0
  | fuel + 1, p =>
    if code.length < p then 0
    else
      match matchAt code p with
      | none => injCountF code shortFile opts ls fuel (p + 1)
      | some m =>
        let matchEnd := p + m.len
        if !isLikelyJsx code p then injCountF code shortFile opts ls fuel matchEnd
        else
          let lc := getLineCol ls p
          let attrs := buildAttrs opts shortFile m.tagName lc.1 lc.2
          if attrs.isEmpty then injCountF code shortFile opts ls fuel matchEnd
          else 1 + injCountF code shortFile opts ls fuel matchEnd

/-- Total number of characters the loop inserts (the lengths of the
`attrStr` strings spliced in). -/
def injLenF (code shortFile : List Char) (opts : TransformOpts) (ls : List Nat) :
    Nat → Nat → Nat
  | 0, _ => 0
  | fuel + 1, p =>
    if code.length < p then 0
    else
      match matchAt code p with
      | none => injLenF code shortFile opts ls fuel (p + 1)
      | some m =>
        let matchEnd := p + m.len
        if !isLikelyJsx code p then injLenF code shortFile opts ls fuel matchEnd
        else
          let lc := getLineCol ls p
          let attrs := buildAttrs opts shortFile m.tagName lc.1 lc.2
          if attrs.isEmpty then injLenF code shortFile opts ls fuel matchEnd
          else (' ' :: List.intercalate [' '] attrs).length +
               injLenF code shortFile opts ls fuel matchEnd

/-- Confirmed injection sites of a whole file, as counted against the same
scan `transformJsx` performs. -/
def injectionCount (code fileId : String) (opts : TransformOpts) : Nat :=
  injCountF code.data (shortFileOf fileId.data) opts (lineStarts code.data)
    (code.data.length + 2) 0

/-- `/\.[jt]sx$/.test(id)` (vite.ts line 213). -/
def jsxFileTest (id : String) : Bool :=
  match id.data.reverse with
  | 'x' :: 's' :: c :: '.' :: _ => c = 'j' || c = 't'
  | _ => false

/-- The root-relative path computation of the `transform` hook
(vite.ts lines 217-219). -/
def relPath (projectRoot id : String) : String :=
  if projectRoot.data.isPrefixOf id.data then
    String.mk (id.data.drop (projectRoot.data.length + 1))
  else id

/-- JS `String.prototype.includes`: contiguous-substring test. -/
def hasSubList (pat : List Char) : List Char → Bool
  | [] => pat.isEmpty
  | c :: rest => pat.isPrefixOf (c :: rest) || hasSubList pat rest

/-- The `transform(code, id)` hook of the plugin (vite.ts lines 208-232):
`none` is the `return null` "unchanged" signal, `some` carries the
transformed code. -/
def pluginTransform (isDev : Bool) (projectRoot : String) (opts : TransformOpts)
    (code id : String) : Option String :=
  if !isDev then none
  else if !jsxFileTest id then none
  else if hasSubList (String.data "node_modules") id.data then none
  else
    let relativePath := relPath projectRoot id
    let transformed := transformJsx code relativePath opts
    if transformed = code then none else some transformed

/-- Wire-format well-formedness: the attribute value is exactly what the
injector writes, `file:line:column` with 1-based integers. -/
def WellFormedSrcVal (v : String) : Prop :=
  ∃ (f : String) (l c : Nat), 1 ≤ l ∧ 1 ≤ c ∧ v.data = formatSourceValue f.data l c

-- ── Digit-string lemmas ──────────────────────────────────────────────

theorem digitChar_jsDigit {m : Nat} (h : m < 10) : jsDigit (Nat.digitChar m) = true := by
  interval_cases m <;> decide

theorem digitChar_toNat {m : Nat} (h : m < 10) : (Nat.digitChar m).toNat = 48 + m := by
  interval_cases m <;> decide

theorem natToDigitsF_ne_nil : ∀ fuel n, n < fuel → natToDigitsF fuel n ≠ []
  | 0, _, h => absurd h (Nat.not_lt_zero _)
  | fuel + 1, n, _ => by
    by_cases h10 : n < 10 <;> simp [natToDigitsF, h10]

theorem natToDigitsF_digits : ∀ fuel n, n < fuel → ∀ c ∈ natToDigitsF fuel n, jsDigit c = true
  | 0, _, h => absurd h (Nat.not_lt_zero _)
  | fuel + 1, n, hlt => by
    by_cases h10 : n < 10
    · intro c hc
      simp [natToDigitsF, h10] at hc
      subst hc
      exact digitChar_jsDigit h10
    · intro c hc
      simp [natToDigitsF, h10] at hc
      rcases hc with hc | hc
      · exact natToDigitsF_digits fuel (n / 10) (by omega) c hc
      · subst hc
        exact digitChar_jsDigit (by omega)

theorem digitsVal_append_digit (l : List Char) (c : Char) :
    digitsVal (l ++ [c]) = 10 * digitsVal l + (c.toNat - 48) := by
  simp [digitsVal, List.foldl_append]

theorem natToDigitsF_val : ∀ fuel n, n < fuel → digitsVal (natToDigitsF fuel n) = n
  | 0, _, h => absurd h (Nat.not_lt_zero _)
  | fuel + 1, n, hlt => by
    by_cases h10 : n < 10
    · simp only [natToDigitsF, if_pos h10]
      simp [digitsVal, digitChar_toNat h10]
    · simp only [natToDigitsF, if_neg h10]
      rw [digitsVal_append_digit, natToDigitsF_val fuel (n / 10) (by omega),
        digitChar_toNat (by omega : n % 10 < 10)]
      omega

theorem natToDigits_ne_nil (n : Nat) : natToDigits n ≠ [] :=
  natToDigitsF_ne_nil _ _ (Nat.lt_succ_self n)

theorem natToDigits_digits (n : Nat) : ∀ c ∈ natToDigits n, jsDigit c = true :=
  natToDigitsF_digits _ _ (Nat.lt_succ_self n)

theorem natToDigits_val (n : Nat) : digitsVal (natToDigits n) = n :=
  natToDigitsF_val _ _ (Nat.lt_succ_self n)

theorem jsDigit_toNat {c : Char} (h : jsDigit c = true) :
    48 ≤ c.toNat ∧ c.toNat ≤ 57 := by
  simpa [jsDigit] using h

theorem jsDigit_not_space {c : Char} (h : jsDigit c = true) : jsSpace c = false := by
  have hb := jsDigit_toNat h
  simp [jsSpace]
  omega

theorem jsDigit_ne_colon {c : Char} (h : jsDigit c = true) : ¬ c = ':' := by
  intro he
  subst he
  exact absurd h (by decide)

theorem jsDigit_ne_minus {c : Char} (h : jsDigit c = true) : ¬ c = '-' := by
  intro he
  subst he
  exact absurd h (by decide)

theorem jsDigit_ne_plus {c : Char} (h : jsDigit c = true) : ¬ c = '+' := by
  intro he
  subst he
  exact absurd h (by decide)

theorem takeWhile_all {α : Type} {p : α → Bool} :
    ∀ {l : List α}, (∀ c ∈ l, p c = true) → l.takeWhile p = l := by
  intro l h
  induction l with
  | nil => rfl
  | cons c rest ih =>
    rw [List.takeWhile_cons, if_pos (h c (by simp))]
    rw [ih (fun x hx => h x (by simp [hx]))]

theorem jsParseInt_natToDigits (n : Nat) : jsParseInt (natToDigits n) = some (n : Int) := by
  obtain ⟨d, rest, hd⟩ : ∃ d rest, natToDigits n = d :: rest := by
    cases h : natToDigits n with
    | nil => exact absurd h (natToDigits_ne_nil n)
    | cons d rest => exact ⟨d, rest, rfl⟩
  have hdig : ∀ c ∈ natToDigits n, jsDigit c = true := natToDigits_digits n
  have hd_dig : jsDigit d = true := hdig d (by rw [hd]; simp)
  have hdrop : (natToDigits n).dropWhile jsSpace = natToDigits n := by
    rw [hd, List.dropWhile_cons, if_neg (by simp [jsDigit_not_space hd_dig])]
  have htake : (natToDigits n).takeWhile jsDigit = natToDigits n := takeWhile_all hdig
  rw [jsParseInt, hdrop, hd, jsParseIntAux,
    if_neg (jsDigit_ne_minus hd_dig), if_neg (jsDigit_ne_plus hd_dig)]
  rw [parseDigitRun, ← hd]
  simp only [htake]
  rw [if_neg (natToDigits_ne_nil n), natToDigits_val n]
  rfl

-- ── Split/join lemmas ────────────────────────────────────────────────

theorem splitCh_nil (sep : Char) : splitCh sep [] = [[]] := rfl

theorem splitCh_cons_sep (sep : Char) (rest : List Char) :
    splitCh sep (sep :: rest) = [] :: splitCh sep rest := by
  rw [splitCh]
  simp

theorem splitCh_cons_ne {sep c : Char} (rest : List Char) (h : ¬ c = sep) :
    splitCh sep (c :: rest) =
      (c :: (splitCh sep rest).headD []) :: (splitCh sep rest).tail := by
  rw [splitCh]
  simp [h]

theorem splitCh_ne_nil (sep : Char) : ∀ l, splitCh sep l ≠ []
  | [] => by simp [splitCh_nil]
  | c :: rest => by
    by_cases h : c = sep
    · subst h
      simp [splitCh_cons_sep]
    · simp [splitCh_cons_ne rest h]

theorem splitCh_cons_shape (sep : Char) (l : List Char) :
    ∃ h t, splitCh sep l = h :: t := by
  cases hs : splitCh sep l with
  | nil => exact absurd hs (splitCh_ne_nil sep l)
  | cons h t => exact ⟨h, t, rfl⟩

theorem splitCh_append (sep : Char) : ∀ (a b : List Char),
    splitCh sep (a ++ sep :: b) = splitCh sep a ++ splitCh sep b
  | [], b => by
    simp [splitCh_nil, splitCh_cons_sep]
  | c :: a', b => by
    have ih := splitCh_append sep a' b
    obtain ⟨h1, t1, hs⟩ := splitCh_cons_shape sep a'
    by_cases h : c = sep
    · subst h
      rw [List.cons_append, splitCh_cons_sep, splitCh_cons_sep, ih]
      rfl
    · rw [List.cons_append, splitCh_cons_ne _ h, splitCh_cons_ne _ h, ih, hs]
      simp

theorem splitCh_no_sep (sep : Char) : ∀ (l : List Char),
    (∀ c ∈ l, ¬ c = sep) → splitCh sep l = [l]
  | [], _ => rfl
  | c :: rest, h => by
    have hc : ¬ c = sep := h c (by simp)
    rw [splitCh_cons_ne _ hc,
      splitCh_no_sep sep rest (fun x hx => h x (by simp [hx]))]
    rfl

theorem joinCh_splitCh (sep : Char) : ∀ l, joinCh sep (splitCh sep l) = l
  | [] => rfl
  | c :: rest => by
    have ih := joinCh_splitCh sep rest
    obtain ⟨h1, t1, hs⟩ := splitCh_cons_shape sep rest
    rw [hs] at ih
    by_cases h : c = sep
    · subst h
      rw [splitCh_cons_sep, hs, joinCh, ih]
      simp
    · rw [splitCh_cons_ne _ h, hs]
      simp only [List.headD_cons, List.tail_cons]
      cases t1 with
      | nil =>
        simp only [joinCh] at ih ⊢
        rw [ih]
      | cons t2 ts =>
        simp only [joinCh] at ih ⊢
        rw [List.cons_append, ih]

-- ── parseSourceAttr against the wire format ──────────────────────────

theorem parse_format (file : String) (l c : Nat) :
    parseSourceAttrL (formatSourceValue file.data l c) =
      some ⟨file, (l : Int), (c : Int)⟩ := by
  have hfsv : formatSourceValue file.data l c =
      file.data ++ ':' :: (natToDigits l ++ ':' :: natToDigits c) := by
    simp [formatSourceValue]
  have hl_nosep : splitCh ':' (natToDigits l) = [natToDigits l] :=
    splitCh_no_sep ':' _ (fun ch hch => jsDigit_ne_colon (natToDigits_digits l ch hch))
  have hc_nosep : splitCh ':' (natToDigits c) = [natToDigits c] :=
    splitCh_no_sep ':' _ (fun ch hch => jsDigit_ne_colon (natToDigits_digits c ch hch))
  have hsplit : splitCh ':' (formatSourceValue file.data l c) =
      (splitCh ':' file.data ++ [natToDigits l]) ++ [natToDigits c] := by
    rw [hfsv, splitCh_append, splitCh_append, hl_nosep, hc_nosep]
    simp
  obtain ⟨h1, t1, hsf⟩ := splitCh_cons_shape ':' file.data
  have hne : ¬ formatSourceValue file.data l c = [] := by
    rw [hfsv]
    simp
  rw [parseSourceAttrL, if_neg hne]
  simp only [hsplit]
  have hlen : ¬ ((splitCh ':' file.data ++ [natToDigits l]) ++ [natToDigits c]).length < 3 := by
    rw [hsf]
    simp
  rw [if_neg hlen]
  rw [List.getLastD_concat, List.dropLast_concat, List.getLastD_concat, List.dropLast_concat]
  rw [jsParseInt_natToDigits, jsParseInt_natToDigits, joinCh_splitCh]

theorem parseSourceAttr_mk (d : List Char) :
    parseSourceAttr (some (String.mk d)) = parseSourceAttrL d := rfl

/-- C3: parsing the formatted `"file:line:column"` attribute string
recovers exactly the original file (which may itself contain colons),
line and column: the last two colon-delimited fields are taken from the
right and the remaining fields rejoined with colons are the file. -/
theorem c3_parse_format_roundtrip (file : String) (l c : Nat)
    (_hl : 1 ≤ l) (_hc : 1 ≤ c) :
    parseSourceAttr (some (String.mk (formatSourceValue file.data l c))) =
      some ⟨file, (l : Int), (c : Int)⟩ := by
  rw [parseSourceAttr_mk]
  exact parse_format file l c

/-- Witness for C3 at the spec's own example `"C:\src\App.tsx:42:8"`. -/
theorem c3_parse_format_roundtrip_witness :
    String.mk (formatSourceValue (String.data "C:\\src\\App.tsx") 42 8) =
        "C:\\src\\App.tsx:42:8" ∧
      parseSourceAttr (some "C:\\src\\App.tsx:42:8") =
        some ⟨"C:\\src\\App.tsx", 42, 8⟩ := by
  constructor
  · rfl
  · have h := c3_parse_format_roundtrip "C:\\src\\App.tsx" 42 8 (by omega) (by omega)
    simpa using h

/-- C4: `parseSourceAttr` returns `null` for null input, for the empty
string, for every input with fewer than 3 colon-delimited fields, and for
every input either of whose last two colon-delimited fields is not
parseable by `parseInt` (e.g. `"file:abc:def"`). -/
theorem c4_parse_rejects_malformed :
    parseSourceAttr none = none ∧
    parseSourceAttr (some "") = none ∧
    (∀ v : String, (splitCh ':' v.data).length < 3 → parseSourceAttr (some v) = none) ∧
    (∀ v : String,
      jsParseInt ((splitCh ':' v.data).getLastD []) = none ∨
        jsParseInt ((splitCh ':' v.data).dropLast.getLastD []) = none →
      parseSourceAttr (some v) = none) := by
  refine ⟨rfl, rfl, ?_, ?_⟩
  · intro v h
    show parseSourceAttrL v.data = none
    by_cases hv : v.data = []
    · rw [parseSourceAttrL, if_pos hv]
    · rw [parseSourceAttrL, if_neg hv]
      simp only [if_pos h]
  · intro v h
    show parseSourceAttrL v.data = none
    by_cases hv : v.data = []
    · rw [parseSourceAttrL, if_pos hv]
    · by_cases hlen : (splitCh ':' v.data).length < 3
      · rw [parseSourceAttrL, if_neg hv]
        simp only [if_pos hlen]
      · rw [parseSourceAttrL, if_neg hv]
        simp only [if_neg hlen]
        rcases h with h | h
        · rw [h]
          cases jsParseInt ((splitCh ':' v.data).dropLast.getLastD []) <;> rfl
        · rw [h]

/-- Witness for C4 on the spec's example `"file:abc:def"` and a
two-field input `"file:10"`. -/
theorem c4_parse_rejects_malformed_witness :
    parseSourceAttr (some "file:abc:def") = none ∧
    parseSourceAttr (some "file:10") = none :=
  ⟨c4_parse_rejects_malformed.2.2.2 "file:abc:def" (by decide),
   c4_parse_rejects_malformed.2.2.1 "file:10" (by decide)⟩

-- ── Resolver walk lemmas ─────────────────────────────────────────────

theorem parseSourceAttr_some (v : String) :
    parseSourceAttr (some v) = parseSourceAttrL v.data := rfl

theorem srcWalk_cons_attr {n : DomNode} {rest : List DomNode} {v : String}
    (ha : getAttribute n ATTR_SOURCE = some v) (hv : v ≠ "") :
    srcWalk (n :: rest) = parseSourceAttr (some v) := by
  simp only [srcWalk, ha, if_pos hv]

theorem srcWalk_cons_skip {n : DomNode} {rest : List DomNode}
    (h : getAttribute n ATTR_SOURCE = none ∨ getAttribute n ATTR_SOURCE = some "") :
    srcWalk (n :: rest) = srcWalk rest := by
  rcases h with h | h
  · simp only [srcWalk, h]
  · simp only [srcWalk, h, ne_eq, not_true_eq_false, if_neg, ite_false]

theorem inspect_elementSource (el : DomNode) (anc : List DomNode) (now : Nat) :
    (inspect el anc now).elementSource =
      match getElementSource el with
      | some s => some s
      | none => findNearestSource el anc := rfl

theorem wf_parse {v : String} (h : WellFormedSrcVal v) {loc : SourceLocation}
    (hp : parseSourceAttr (some v) = some loc) :
    1 ≤ loc.line ∧ 1 ≤ loc.column := by
  obtain ⟨f, l, c, hl, hc, hdata⟩ := h
  have hv : parseSourceAttr (some v) = some ⟨f, (l : Int), (c : Int)⟩ := by
    rw [parseSourceAttr_some, hdata]
    exact parse_format f l c
  rw [hv] at hp
  have := Option.some.inj hp
  subst this
  refine ⟨?_, ?_⟩
  · show (1 : Int) ≤ (l : Int)
    exact_mod_cast hl
  · show (1 : Int) ≤ (c : Int)
    exact_mod_cast hc

theorem getElementSource_wf {el : DomNode}
    (hwf : ∀ v, getAttribute el ATTR_SOURCE = some v → WellFormedSrcVal v)
    {loc : SourceLocation} (h : getElementSource el = some loc) :
    1 ≤ loc.line ∧ 1 ≤ loc.column := by
  rw [getElementSource] at h
  cases ha : getAttribute el ATTR_SOURCE with
  | none => rw [ha] at h; exact absurd h (by simp [parseSourceAttr])
  | some v => rw [ha] at h; exact wf_parse (hwf v ha) h

theorem srcWalk_wf : ∀ (chain : List DomNode),
    (∀ n ∈ chain, ∀ v, getAttribute n ATTR_SOURCE = some v → WellFormedSrcVal v) →
    ∀ loc, srcWalk chain = some loc → 1 ≤ loc.line ∧ 1 ≤ loc.column
  | [] => by
    intro _ loc h
    exact absurd h (by simp [srcWalk])
  | n :: rest => by
    intro hwf loc h
    cases ha : getAttribute n ATTR_SOURCE with
    | none =>
      rw [srcWalk_cons_skip (Or.inl ha)] at h
      exact srcWalk_wf rest (fun m hm => hwf m (by simp [hm])) loc h
    | some v =>
      by_cases hv : v = ""
      · subst hv
        rw [srcWalk_cons_skip (Or.inr ha)] at h
        exact srcWalk_wf rest (fun m hm => hwf m (by simp [hm])) loc h
      · rw [srcWalk_cons_attr ha hv] at h
        exact wf_parse (hwf n (by simp) v ha) h

-- ── Component-chain key lemmas ───────────────────────────────────────

theorem contains_false_not_mem {l : List String} {a : String}
    (h : l.contains a = false) : a ∉ l := by
  intro hm
  have he : List.elem a l = true := List.elem_eq_true_of_mem hm
  rw [show l.contains a = List.elem a l from rfl, he] at h
  cases h

theorem chainGo_cons_none {n : DomNode} {rest : List DomNode} {seen : List String}
    (ha : getAttribute n ATTR_COMPONENT = none) :
    chainGo (n :: rest) seen = chainGo rest seen := by
  simp only [chainGo, ha]

theorem chainGo_cons_empty {n : DomNode} {rest : List DomNode} {seen : List String}
    (ha : getAttribute n ATTR_COMPONENT = some "") :
    chainGo (n :: rest) seen = chainGo rest seen := by
  simp only [chainGo, ha]
  simp

theorem chainGo_cons_dup {n : DomNode} {rest : List DomNode} {seen : List String}
    {name : String} (ha : getAttribute n ATTR_COMPONENT = some name)
    (hname : name ≠ "")
    (hc : seen.contains (chainKey name (getElementSource n)) = true) :
    chainGo (n :: rest) seen = chainGo rest seen := by
  simp only [chainGo, ha, if_pos hname]
  rw [if_pos hc]

theorem chainGo_cons_new {n : DomNode} {rest : List DomNode} {seen : List String}
    {name : String} (ha : getAttribute n ATTR_COMPONENT = some name)
    (hname : name ≠ "")
    (hc : seen.contains (chainKey name (getElementSource n)) = false) :
    chainGo (n :: rest) seen =
      ⟨name, getElementSource n⟩ ::
        chainGo rest (chainKey name (getElementSource n) :: seen) := by
  have hcne : ¬ seen.contains (chainKey name (getElementSource n)) = true := by
    rw [hc]
    exact Bool.false_ne_true
  simp only [chainGo, ha, if_pos hname]
  rw [if_neg hcne]

theorem chainGo_key_fresh : ∀ (rest : List DomNode) (seen : List String) (k : String),
    k ∈ seen → ∀ e ∈ chainGo rest seen, ¬ chainKey e.name e.location = k
  | [], _, _ => by
    intro _ e he
    simp [chainGo] at he
  | n :: rest, seen, k => by
    intro hk e he
    cases ha : getAttribute n ATTR_COMPONENT with
    | none =>
      rw [chainGo_cons_none ha] at he
      exact chainGo_key_fresh rest seen k hk e he
    | some name =>
      by_cases hname : name = ""
      · subst hname
        rw [chainGo_cons_empty ha] at he
        exact chainGo_key_fresh rest seen k hk e he
      · cases hc : seen.contains (chainKey name (getElementSource n)) with
        | true =>
          rw [chainGo_cons_dup ha hname hc] at he
          exact chainGo_key_fresh rest seen k hk e he
        | false =>
          rw [chainGo_cons_new ha hname hc] at he
          rcases List.mem_cons.mp he with he | he
          · subst he
            intro hkey
            exact contains_false_not_mem hc (hkey ▸ hk)
          · exact chainGo_key_fresh rest (chainKey name (getElementSource n) :: seen) k
              (by simp [hk]) e he

theorem chainGo_pairwise : ∀ (rest : List DomNode) (seen : List String),
    (chainGo rest seen).Pairwise
      (fun a b => ¬ chainKey a.name a.location = chainKey b.name b.location)
  | [], _ => by simp [chainGo]
  | n :: rest, seen => by
    cases ha : getAttribute n ATTR_COMPONENT with
    | none =>
      rw [chainGo_cons_none ha]
      exact chainGo_pairwise rest seen
    | some name =>
      by_cases hname : name = ""
      · subst hname
        rw [chainGo_cons_empty ha]
        exact chainGo_pairwise rest seen
      · cases hc : seen.contains (chainKey name (getElementSource n)) with
        | true =>
          rw [chainGo_cons_dup ha hname hc]
          exact chainGo_pairwise rest seen
        | false =>
          rw [chainGo_cons_new ha hname hc]
          refine List.Pairwise.cons ?_ (chainGo_pairwise rest _)
          intro e he hkey
          exact chainGo_key_fresh rest
            (chainKey name (getElementSource n) :: seen)
            (chainKey name (getElementSource n)) (by simp) e he hkey.symm

-- ── Claims on the resolver ───────────────────────────────────────────

/-- C10: the component chain contains no two entries, at any two
positions, whose name, location file and location line (the parts the
dedup key `name:file:line` is built from, with `undefined` standing in
for a missing location and the column ignored) all coincide —
deduplication is global over the entire ancestor walk. -/
theorem c10_chain_global_dedup (el : DomNode) (anc : List DomNode) :
    (getComponentChain el anc).Pairwise
      (fun a b => ¬ (a.name = b.name ∧
        a.location.map SourceLocation.file = b.location.map SourceLocation.file ∧
        a.location.map SourceLocation.line = b.location.map SourceLocation.line)) := by
  refine (chainGo_pairwise (el :: anc) []).imp ?_
  intro a b hkey htriple
  obtain ⟨hn, hf, hl⟩ := htriple
  apply hkey
  cases hla : a.location with
  | none =>
    cases hlb : b.location with
    | none => rw [hn]
    | some t =>
      rw [hla, hlb] at hf
      exact absurd hf (by simp)
  | some s =>
    cases hlb : b.location with
    | none =>
      rw [hla, hlb] at hf
      exact absurd hf (by simp)
    | some t =>
      rw [hla, hlb] at hf hl
      simp only [Option.map_some', Option.some.injEq] at hf hl
      rw [hn]
      simp [chainKey, hf, hl]

/-- C2 (evaluation at the failing input): on the ancestor chain
`X@A.tsx:1:1 → Y@B.tsx:2:1 → X@A.tsx:1:1` the walk returns only two
entries — the later, non-consecutive recurrence of `(X, A.tsx, 1)` is
dropped by the global `seen` set, not preserved as the spec's
consecutive-only rule requires. -/
theorem c2_nonconsecutive_recurrence_dropped :
    getComponentChain
      ⟨"DIV", "", "", "<div></div>",
        [("data-solid-component", "X"), ("data-solid-source", "A.tsx:1:1")]⟩
      [⟨"DIV", "", "", "<div></div>",
        [("data-solid-component", "Y"), ("data-solid-source", "B.tsx:2:1")]⟩,
       ⟨"DIV", "", "", "<div></div>",
        [("data-solid-component", "X"), ("data-solid-source", "A.tsx:1:1")]⟩] =
      [⟨"X", some ⟨"A.tsx", 1, 1⟩⟩, ⟨"Y", some ⟨"B.tsx", 2, 1⟩⟩] := by
  decide

/-- C5 (counterexample): a malformed, non-empty `data-solid-source` value
(`"x:y"`, two fields) on the inner element is *not* treated as absent:
the walk stops there and yields `none`, whereas with no attribute at all
the same walk finds the valid ancestor attribute. -/
theorem c5_counterexample :
    findNearestSource
        ⟨"DIV", "", "", "<div></div>", [("data-solid-source", "x:y")]⟩
        [⟨"DIV", "", "", "<div></div>", [("data-solid-source", "Parent.tsx:5:3")]⟩] =
      none ∧
    findNearestSource
        ⟨"DIV", "", "", "<div></div>", []⟩
        [⟨"DIV", "", "", "<div></div>", [("data-solid-source", "Parent.tsx:5:3")]⟩] =
      some ⟨"Parent.tsx", 5, 3⟩ ∧
    (inspect
        ⟨"DIV", "", "", "<div></div>", [("data-solid-source", "x:y")]⟩
        [⟨"DIV", "", "", "<div></div>", [("data-solid-source", "Parent.tsx:5:3")]⟩]
        0).elementSource = none := by
  decide

/-- C5 (amended): a malformed attribute value parses to `null` and the
resolvers never throw, but the attribute is not skipped: the walk stops
at the first element whose attribute value is non-empty and returns that
value's parse result, so a malformed value there makes
`findNearestSource`/`inspect` yield `none` rather than falling through
to an ancestor; only an absent or empty-string attribute lets the walk
continue. -/
theorem c5_malformed_stops_walk :
    (∀ (n : DomNode) (rest : List DomNode) (v : String),
      getAttribute n ATTR_SOURCE = some v → v ≠ "" →
      findNearestSource n rest = parseSourceAttr (some v)) ∧
    (∀ (n : DomNode) (rest : List DomNode),
      getAttribute n ATTR_SOURCE = none ∨ getAttribute n ATTR_SOURCE = some "" →
      findNearestSource n rest = srcWalk rest) ∧
    (∀ (el : DomNode) (anc : List DomNode) (now : Nat) (v : String),
      getAttribute el ATTR_SOURCE = some v → v ≠ "" →
      parseSourceAttr (some v) = none →
      (inspect el anc now).elementSource = none) := by
  refine ⟨?_, ?_, ?_⟩
  · intro n rest v ha hv
    exact srcWalk_cons_attr ha hv
  · intro n rest h
    exact srcWalk_cons_skip h
  · intro el anc now v ha hv hp
    rw [inspect_elementSource]
    have hg : getElementSource el = none := by
      rw [getElementSource, ha, hp]
    rw [hg, findNearestSource, srcWalk_cons_attr ha hv, hp]

/-- Witness for C5's amended theorem at the malformed value `"x:y"`. -/
theorem c5_malformed_stops_walk_witness :
    findNearestSource
        ⟨"DIV", "", "", "<div></div>", [("data-solid-source", "x:y")]⟩ [] =
      parseSourceAttr (some "x:y") ∧
    (inspect ⟨"DIV", "", "", "<div></div>", [("data-solid-source", "x:y")]⟩ [] 0).elementSource =
      none :=
  ⟨c5_malformed_stops_walk.1 _ [] "x:y" (by decide) (by decide),
   c5_malformed_stops_walk.2.2 _ [] 0 "x:y" (by decide) (by decide) (by decide)⟩

/-- C6 (counterexample): the DOM may carry any attribute string; the value
`"f:0:0"` parses to a non-null location whose line is `0`, so a non-null
`elementSource` does not always satisfy `line ≥ 1 ∧ column ≥ 1`. -/
theorem c6_counterexample :
    getElementSource ⟨"DIV", "", "", "<div></div>", [("data-solid-source", "f:0:0")]⟩ =
      some ⟨"f", 0, 0⟩ ∧
    (inspect ⟨"DIV", "", "", "<div></div>", [("data-solid-source", "f:0:0")]⟩ [] 0).elementSource =
      some ⟨"f", 0, 0⟩ ∧
    ¬ (1 ≤ (SourceLocation.mk "f" 0 0).line ∧ 1 ≤ (SourceLocation.mk "f" 0 0).column) := by
  decide

/-- C6 (amended): whenever every `data-solid-source` value present on the
walked chain is a well-formed injector-format string (`file:line:column`
with 1-based integers — which is all the injector ever writes), any
non-null location returned by `inspect`, `findNearestSource` or
`getElementSource` satisfies `line ≥ 1 ∧ column ≥ 1`. -/
theorem c6_wellformed_nonnull_positive (el : DomNode) (anc : List DomNode) (now : Nat)
    (hwf : ∀ n ∈ el :: anc, ∀ v, getAttribute n ATTR_SOURCE = some v → WellFormedSrcVal v) :
    ∀ loc : SourceLocation,
      (inspect el anc now).elementSource = some loc ∨
        findNearestSource el anc = some loc ∨
        getElementSource el = some loc →
      1 ≤ loc.line ∧ 1 ≤ loc.column := by
  intro loc h
  have hself : ∀ v, getAttribute el ATTR_SOURCE = some v → WellFormedSrcVal v :=
    fun v hv => hwf el (by simp) v hv
  rcases h with h | h | h
  · rw [inspect_elementSource] at h
    cases hg : getElementSource el with
    | some s =>
      rw [hg] at h
      have := Option.some.inj h
      subst this
      exact getElementSource_wf hself hg
    | none =>
      rw [hg] at h
      exact srcWalk_wf (el :: anc) hwf loc h
  · exact srcWalk_wf (el :: anc) hwf loc h
  · exact getElementSource_wf hself h

/-- Witness for C6's amended theorem on a well-formed chain. -/
theorem c6_wellformed_nonnull_positive_witness :
    1 ≤ (SourceLocation.mk "src/App.tsx" 3 1).line ∧
      1 ≤ (SourceLocation.mk "src/App.tsx" 3 1).column := by
  refine c6_wellformed_nonnull_positive
    ⟨"DIV", "", "", "<div></div>", [("data-solid-source", "src/App.tsx:3:1")]⟩ [] 0
    ?_ ⟨"src/App.tsx", 3, 1⟩ (Or.inr (Or.inr (by decide)))
  intro n hn v hv
  have hn' : n = ⟨"DIV", "", "", "<div></div>", [("data-solid-source", "src/App.tsx:3:1")]⟩ := by
    simpa using hn
  subst hn'
  have hv' : v = "src/App.tsx:3:1" := by
    have : some "src/App.tsx:3:1" = some v := by
      rw [← hv]
      decide
    exact (Option.some.inj this).symm
  subst hv'
  exact ⟨"src/App.tsx", 3, 1, by omega, by omega, by decide⟩

/-- C9: with a null `elementSource` and an empty component list,
`formatContext` emits exactly the opening banner, a blank line, the
`Element:` line, and the `HTML:` block between blank lines and the
closing banner — no `Source:` line and no component-tree block. -/
theorem c9_format_omits_source_and_components (el : DomNode) (tn : String) (ts : Nat) :
    formatLines ⟨el, tn, none, [], ts⟩ =
      ["--- solid-grab context ---", "",
       "Element: " ++ getElementSummary el,
       "", "HTML:", getElementSnippet el 500,
       "", "--- end solid-grab context ---"] ∧
    formatContext ⟨el, tn, none, [], ts⟩ =
      String.intercalate "\n"
        ["--- solid-grab context ---", "",
         "Element: " ++ getElementSummary el,
         "", "HTML:", getElementSnippet el 500,
         "", "--- end solid-grab context ---"] :=
  ⟨rfl, rfl⟩

-- ── Classifier lemmas ────────────────────────────────────────────────

theorem word_not_closer {c : Char} (h : isWordChar c = true) :
    (c == ')' || c == ']' || c == '"' || c == Char.ofNat 39 || c == Char.ofNat 96) = false := by
  have h1 : c ≠ ')' := fun he => by subst he; exact absurd h (by decide)
  have h2 : c ≠ ']' := fun he => by subst he; exact absurd h (by decide)
  have h3 : c ≠ '"' := fun he => by subst he; exact absurd h (by decide)
  have h4 : c ≠ Char.ofNat 39 := fun he => by subst he; exact absurd h (by decide)
  have h5 : c ≠ Char.ofNat 96 := fun he => by subst he; exact absurd h (by decide)
  simp [h1, h2, h3, h4, h5]

theorem word_not_opener {c : Char} (h : isWordChar c = true) :
    exprOpeners.contains c = false := by
  cases hc : exprOpeners.contains c with
  | false => rfl
  | true =>
    have hmem : c ∈ exprOpeners := List.mem_of_elem_eq_true hc
    fin_cases hmem <;> exact absurd h (by decide)

/-- C8: with `jsxLocation` on and `componentLocation` off, the attribute
array built at every confirmed site is exactly the single
`data-solid-source` attribute — for every tag name, component-like or
not — so `data-solid-source` is injected at every confirmed markup tag
and `data-solid-component` at none; checked end-to-end on a
component-like and an intrinsic tag. -/
theorem c8_location_only_injection :
    (∀ (shortFile tag : List Char) (line col : Nat),
      buildAttrs ⟨true, false⟩ shortFile tag line col =
        [String.data "data-solid-source=\"" ++ formatSourceValue shortFile line col ++ ['"']]) ∧
    transformJsx "<Foo />" "f.tsx" ⟨true, false⟩ =
      "<Foo data-solid-source=\"f.tsx:1:1\" />" ∧
    transformJsx "return <div>x</div>;" "f.tsx" ⟨true, false⟩ =
      "return <div data-solid-source=\"f.tsx:1:8\">x</div>;" :=
  ⟨fun _ _ _ _ => rfl, rfl, rfl⟩

/-- C1: the backward-scan classifier.  Writing `scanned` for the reversed
prefix before the `<` with space/tab/newline/CR skipped: an exhausted
scan (start of file) classifies as markup; a nearest character in the
expression-opening punctuation set classifies as markup; a word
character classifies as markup exactly when the full word it ends is one
of return/yield/case/default/else; `)`, `]` and quotes classify as
non-markup.  Consequently `return <div>`, `cond ? <div> : <span>` and
`show() && <div>` are injected, while `x < y`, `a() < b` and
`x = count() < totalItems` produce no injection and the transform
output equals the input. -/
theorem c1_backward_scan_classifier :
    (∀ (code : List Char) (ltIndex : Nat),
      ((code.take ltIndex).reverse).dropWhile isBackWs = [] →
      isLikelyJsx code ltIndex = true) ∧
    (∀ (code : List Char) (ltIndex : Nat) (c : Char) (rest : List Char),
      ((code.take ltIndex).reverse).dropWhile isBackWs = c :: rest →
      exprOpeners.contains c = true →
      isLikelyJsx code ltIndex = true) ∧
    (∀ (code : List Char) (ltIndex : Nat) (c : Char) (rest : List Char),
      ((code.take ltIndex).reverse).dropWhile isBackWs = c :: rest →
      isWordChar c = true →
      isLikelyJsx code ltIndex =
        JSX_PRECEDING_KEYWORDS.contains
          (String.mk (((c :: rest).takeWhile isWordChar).reverse))) ∧
    (∀ (code : List Char) (ltIndex : Nat) (c : Char) (rest : List Char),
      ((code.take ltIndex).reverse).dropWhile isBackWs = c :: rest →
      (c = ')' ∨ c = ']' ∨ c = '"' ∨ c = Char.ofNat 39 ∨ c = Char.ofNat 96) →
      isLikelyJsx code ltIndex = false) ∧
    transformJsx "return <div>hello</div>;" "App.tsx" ⟨true, true⟩ =
      "return <div data-solid-source=\"App.tsx:1:8\">hello</div>;" ∧
    transformJsx "cond ? <div>a</div> : <span>b</span>;" "App.tsx" ⟨true, true⟩ =
      "cond ? <div data-solid-source=\"App.tsx:1:8\">a</div> : <span data-solid-source=\"App.tsx:1:23\">b</span>;" ∧
    transformJsx "show() && <div>x</div>" "App.tsx" ⟨true, true⟩ =
      "show() && <div data-solid-source=\"App.tsx:1:11\">x</div>" ∧
    transformJsx "x < y" "App.tsx" ⟨true, true⟩ = "x < y" ∧
    transformJsx "a() < b" "App.tsx" ⟨true, true⟩ = "a() < b" ∧
    transformJsx "x = count() < totalItems" "App.tsx" ⟨true, true⟩ =
      "x = count() < totalItems" ∧
    transformJsx "x = count() < totalItems\n" "App.tsx" ⟨true, true⟩ =
      "x = count() < totalItems\n" := by
  refine ⟨?_, ?_, ?_, ?_, rfl, rfl, rfl, rfl, rfl, rfl, rfl⟩
  · intro code ltIndex h
    rw [isLikelyJsx, h]
    rfl
  · intro code ltIndex c rest h h2
    have hmem : c ∈ exprOpeners := List.mem_of_elem_eq_true h2
    rw [isLikelyJsx, h]
    fin_cases hmem <;> rfl
  · intro code ltIndex c rest h h2
    rw [isLikelyJsx, h]
    simp only [classifyScan]
    have h3 := word_not_closer h2
    rw [if_neg (by rw [h3]; exact Bool.false_ne_true)]
    have h4 := word_not_opener h2
    rw [if_neg (by rw [h4]; exact Bool.false_ne_true)]
    rw [if_pos h2]
  · intro code ltIndex c rest h h2
    rw [isLikelyJsx, h]
    rcases h2 with h2 | h2 | h2 | h2 | h2 <;> subst h2 <;> rfl

/-- Witness for C1's classifier characterization at concrete prefixes:
`&` (after `show() &&`) is markup, `)` (after `a()`) is not, and the
word `return` is markup. -/
theorem c1_backward_scan_classifier_witness :
    isLikelyJsx (String.data "show() && <div>") 10 = true ∧
    isLikelyJsx (String.data "a() < b") 4 = false ∧
    isLikelyJsx (String.data "return <div>") 7 = true := by
  refine ⟨?_, ?_, ?_⟩
  · exact c1_backward_scan_classifier.2.1 _ 10 '&' (String.data "& )(wohs")
      (by decide) (by decide)
  · exact c1_backward_scan_classifier.2.2.2.1 _ 4 ')' (String.data "(a")
      (by decide) (Or.inl rfl)
  · have h := c1_backward_scan_classifier.2.2.1 (String.data "return <div>") 7
      'n' (String.data "ruter") (by decide) (by decide)
    rw [h]
    decide

-- ── Scan-loop lemmas ─────────────────────────────────────────────────

theorem takeWhile_dropWhile_length {α : Type} (p : α → Bool) (l : List α) :
    (l.takeWhile p).length + (l.dropWhile p).length = l.length := by
  rw [← List.length_append, List.takeWhile_append_dropWhile]

theorem matchAt_bounds {code : List Char} {p : Nat} {m : TagMatch}
    (h : matchAt code p = some m) :
    p < code.length ∧ p + m.len ≤ code.length ∧ 1 ≤ m.len := by
  rw [matchAt] at h
  split at h
  · exact absurd h (by simp)
  · split at h
    · exact absurd h (by simp)
    · rename_i c0 afterLt hdrop
      have e1 : afterLt.length + 1 = code.length - p := by
        have := List.length_drop p code
        rw [hdrop] at this
        simp at this
        omega
      split at h
      · split at h
        · exact absurd h (by simp)
        · rename_i c afterC hdw
          have e2 : (afterLt.takeWhile jsSpace).length + (afterC.length + 1) =
              afterLt.length := by
            have := takeWhile_dropWhile_length jsSpace afterLt
            rw [hdw] at this
            simpa using this
          split at h
          · split at h
            · exact absurd h (by simp)
            · rename_i d afterD hdw2
              have e3 : (afterC.takeWhile isTagChar).length + (afterD.length + 1) =
                  afterC.length := by
                have := takeWhile_dropWhile_length isTagChar afterC
                rw [hdw2] at this
                simpa using this
              split at h
              · injection h with hm
                subst hm
                refine ⟨by omega, ?_, ?_⟩ <;> simp [TagMatch.len] <;> omega
              · split at h
                · injection h with hm
                  subst hm
                  refine ⟨by omega, ?_, ?_⟩ <;> simp [TagMatch.len] <;> omega
                · split at h
                  · split at h
                    · exact absurd h (by simp)
                    · split at h
                      · injection h with hm
                        subst hm
                        simp only [List.length_cons] at e3
                        refine ⟨by omega, ?_, ?_⟩ <;> simp [TagMatch.len] <;> omega
                      · exact absurd h (by simp)
                  · exact absurd h (by simp)
          · exact absurd h (by simp)
      · exact absurd h (by simp)

theorem listSlice_append_drop {code : List Char} {a b : Nat} (hab : a ≤ b) :
    listSlice code a b ++ code.drop b = code.drop a := by
  have h1 : (code.drop a).drop (b - a) = code.drop b := by
    rw [List.drop_drop]
    congr 1
    omega
  rw [listSlice, ← h1, List.take_append_drop]

theorem listSlice_length {code : List Char} {a b : Nat} (_hab : a ≤ b)
    (hb : b ≤ code.length) : (listSlice code a b).length = b - a := by
  simp [listSlice, List.length_take, List.length_drop]
  omega

-- Branch equations for the three parallel scan recursions.

theorem scanLoopF_zero (code sf : List Char) (opts : TransformOpts) (ls : List Nat)
    (p l : Nat) (acc : List Char) :
    scanLoopF code sf opts ls 0 p l acc = acc ++ code.drop l := rfl

theorem scanLoopF_flush (code sf : List Char) (opts : TransformOpts) (ls : List Nat)
    {p : Nat} (fuel l : Nat) (acc : List Char) (hp : code.length < p) :
    scanLoopF code sf opts ls (fuel + 1) p l acc = acc ++ code.drop l := by
  simp only [scanLoopF, if_pos hp]

theorem scanLoopF_miss (code sf : List Char) (opts : TransformOpts) (ls : List Nat)
    {p : Nat} (fuel l : Nat) (acc : List Char)
    (hp : ¬ code.length < p) (hm : matchAt code p = none) :
    scanLoopF code sf opts ls (fuel + 1) p l acc =
      scanLoopF code sf opts ls fuel (p + 1) l acc := by
  simp only [scanLoopF, if_neg hp, hm]

theorem scanLoopF_skip (code sf : List Char) (opts : TransformOpts) (ls : List Nat)
    {p : Nat} {m : TagMatch} (fuel l : Nat) (acc : List Char)
    (hp : ¬ code.length < p) (hm : matchAt code p = some m)
    (hj : isLikelyJsx code p = false) :
    scanLoopF code sf opts ls (fuel + 1) p l acc =
      scanLoopF code sf opts ls fuel (p + m.len) l acc := by
  simp only [scanLoopF, if_neg hp, hm, hj, Bool.not_false, if_true]

theorem scanLoopF_empty (code sf : List Char) (opts : TransformOpts) (ls : List Nat)
    {p : Nat} {m : TagMatch} (fuel l : Nat) (acc : List Char)
    (hp : ¬ code.length < p) (hm : matchAt code p = some m)
    (hj : isLikelyJsx code p = true)
    (ha : (buildAttrs opts sf m.tagName (getLineCol ls p).1 (getLineCol ls p).2).isEmpty = true) :
    scanLoopF code sf opts ls (fuel + 1) p l acc =
      scanLoopF code sf opts ls fuel (p + m.len) (p + m.len)
        (acc ++ listSlice code l (p + m.len)) := by
  simp only [scanLoopF, if_neg hp, hm, hj, Bool.not_true,
    if_neg (by simp : ¬ false = true), if_pos ha]

theorem scanLoopF_inject (code sf : List Char) (opts : TransformOpts) (ls : List Nat)
    {p : Nat} {m : TagMatch} (fuel l : Nat) (acc : List Char)
    (hp : ¬ code.length < p) (hm : matchAt code p = some m)
    (hj : isLikelyJsx code p = true)
    (ha : (buildAttrs opts sf m.tagName (getLineCol ls p).1 (getLineCol ls p).2).isEmpty = false) :
    scanLoopF code sf opts ls (fuel + 1) p l acc =
      scanLoopF code sf opts ls fuel (p + m.len) (p + m.len)
        (acc ++ listSlice code l p ++ m.lead ++ m.tagName ++
          (' ' :: List.intercalate [' ']
            (buildAttrs opts sf m.tagName (getLineCol ls p).1 (getLineCol ls p).2)) ++
          m.tail) := by
  have hane : ¬ (buildAttrs opts sf m.tagName
      (getLineCol ls p).1 (getLineCol ls p).2).isEmpty = true := by
    rw [ha]
    exact Bool.false_ne_true
  simp only [scanLoopF, if_neg hp, hm, hj, Bool.not_true,
    if_neg (by simp : ¬ false = true), if_neg hane]

theorem injCountF_zero (code sf : List Char) (opts : TransformOpts) (ls : List Nat)
    (p : Nat) : injCountF code sf opts ls 0 p = 0 := rfl

theorem injCountF_flush (code sf : List Char) (opts : TransformOpts) (ls : List Nat)
    {p : Nat} (fuel : Nat) (hp : code.length < p) :
    injCountF code sf opts ls (fuel + 1) p = 0 := by
  simp only [injCountF, if_pos hp]

theorem injCountF_miss (code sf : List Char) (opts : TransformOpts) (ls : List Nat)
    {p : Nat} (fuel : Nat) (hp : ¬ code.length < p) (hm : matchAt code p = none) :
    injCountF code sf opts ls (fuel + 1) p = injCountF code sf opts ls fuel (p + 1) := by
  simp only [injCountF, if_neg hp, hm]

theorem injCountF_skip (code sf : List Char) (opts : TransformOpts) (ls : List Nat)
    {p : Nat} {m : TagMatch} (fuel : Nat)
    (hp : ¬ code.length < p) (hm : matchAt code p = some m)
    (hj : isLikelyJsx code p = false) :
    injCountF code sf opts ls (fuel + 1) p = injCountF code sf opts ls fuel (p + m.len) := by
  simp only [injCountF, if_neg hp, hm, hj, Bool.not_false, if_true]

theorem injCountF_empty (code sf : List Char) (opts : TransformOpts) (ls : List Nat)
    {p : Nat} {m : TagMatch} (fuel : Nat)
    (hp : ¬ code.length < p) (hm : matchAt code p = some m)
    (hj : isLikelyJsx code p = true)
    (ha : (buildAttrs opts sf m.tagName (getLineCol ls p).1 (getLineCol ls p).2).isEmpty = true) :
    injCountF code sf opts ls (fuel + 1) p = injCountF code sf opts ls fuel (p + m.len) := by
  simp only [injCountF, if_neg hp, hm, hj, Bool.not_true,
    if_neg (by simp : ¬ false = true), if_pos ha]

theorem injCountF_inject (code sf : List Char) (opts : TransformOpts) (ls : List Nat)
    {p : Nat} {m : TagMatch} (fuel : Nat)
    (hp : ¬ code.length < p) (hm : matchAt code p = some m)
    (hj : isLikelyJsx code p = true)
    (ha : (buildAttrs opts sf m.tagName (getLineCol ls p).1 (getLineCol ls p).2).isEmpty = false) :
    injCountF code sf opts ls (fuel + 1) p =
      1 + injCountF code sf opts ls fuel (p + m.len) := by
  have hane : ¬ (buildAttrs opts sf m.tagName
      (getLineCol ls p).1 (getLineCol ls p).2).isEmpty = true := by
    rw [ha]
    exact Bool.false_ne_true
  simp only [injCountF, if_neg hp, hm, hj, Bool.not_true,
    if_neg (by simp : ¬ false = true), if_neg hane]

theorem injLenF_zero (code sf : List Char) (opts : TransformOpts) (ls : List Nat)
    (p : Nat) : injLenF code sf opts ls 0 p = 0 := rfl

theorem injLenF_flush (code sf : List Char) (opts : TransformOpts) (ls : List Nat)
    {p : Nat} (fuel : Nat) (hp : code.length < p) :
    injLenF code sf opts ls (fuel + 1) p = 0 := by
  simp only [injLenF, if_pos hp]

theorem injLenF_miss (code sf : List Char) (opts : TransformOpts) (ls : List Nat)
    {p : Nat} (fuel : Nat) (hp : ¬ code.length < p) (hm : matchAt code p = none) :
    injLenF code sf opts ls (fuel + 1) p = injLenF code sf opts ls fuel (p + 1) := by
  simp only [injLenF, if_neg hp, hm]

theorem injLenF_skip (code sf : List Char) (opts : TransformOpts) (ls : List Nat)
    {p : Nat} {m : TagMatch} (fuel : Nat)
    (hp : ¬ code.length < p) (hm : matchAt code p = some m)
    (hj : isLikelyJsx code p = false) :
    injLenF code sf opts ls (fuel + 1) p = injLenF code sf opts ls fuel (p + m.len) := by
  simp only [injLenF, if_neg hp, hm, hj, Bool.not_false, if_true]

theorem injLenF_empty (code sf : List Char) (opts : TransformOpts) (ls : List Nat)
    {p : Nat} {m : TagMatch} (fuel : Nat)
    (hp : ¬ code.length < p) (hm : matchAt code p = some m)
    (hj : isLikelyJsx code p = true)
    (ha : (buildAttrs opts sf m.tagName (getLineCol ls p).1 (getLineCol ls p).2).isEmpty = true) :
    injLenF code sf opts ls (fuel + 1) p = injLenF code sf opts ls fuel (p + m.len) := by
  simp only [injLenF, if_neg hp, hm, hj, Bool.not_true,
    if_neg (by simp : ¬ false = true), if_pos ha]

theorem injLenF_inject (code sf : List Char) (opts : TransformOpts) (ls : List Nat)
    {p : Nat} {m : TagMatch} (fuel : Nat)
    (hp : ¬ code.length < p) (hm : matchAt code p = some m)
    (hj : isLikelyJsx code p = true)
    (ha : (buildAttrs opts sf m.tagName (getLineCol ls p).1 (getLineCol ls p).2).isEmpty = false) :
    injLenF code sf opts ls (fuel + 1) p =
      (' ' :: List.intercalate [' ']
        (buildAttrs opts sf m.tagName (getLineCol ls p).1 (getLineCol ls p).2)).length +
      injLenF code sf opts ls fuel (p + m.len) := by
  have hane : ¬ (buildAttrs opts sf m.tagName
      (getLineCol ls p).1 (getLineCol ls p).2).isEmpty = true := by
    rw [ha]
    exact Bool.false_ne_true
  simp only [injLenF, if_neg hp, hm, hj, Bool.not_true,
    if_neg (by simp : ¬ false = true), if_neg hane]

theorem scan_noinj (code sf : List Char) (opts : TransformOpts) (ls : List Nat) :
    ∀ (fuel p lastIndex : Nat) (acc : List Char),
      lastIndex ≤ p → lastIndex ≤ code.length →
      injCountF code sf opts ls fuel p = 0 →
      scanLoopF code sf opts ls fuel p lastIndex acc = acc ++ code.drop lastIndex := by
  intro fuel
  induction fuel with
  | zero =>
    intro p l acc _ _ _
    rfl
  | succ fuel ih =>
    intro p l acc hlp hllen hcount
    by_cases hp : code.length < p
    · rw [scanLoopF_flush code sf opts ls fuel l acc hp]
    · cases hm : matchAt code p with
      | none =>
        rw [injCountF_miss code sf opts ls fuel hp hm] at hcount
        rw [scanLoopF_miss code sf opts ls fuel l acc hp hm]
        exact ih (p + 1) l acc (by omega) hllen hcount
      | some m =>
        obtain ⟨hp1, hp2, hp3⟩ := matchAt_bounds hm
        cases hj : isLikelyJsx code p with
        | false =>
          rw [injCountF_skip code sf opts ls fuel hp hm hj] at hcount
          rw [scanLoopF_skip code sf opts ls fuel l acc hp hm hj]
          exact ih (p + m.len) l acc (by omega) hllen hcount
        | true =>
          cases ha : (buildAttrs opts sf m.tagName
              (getLineCol ls p).1 (getLineCol ls p).2).isEmpty with
          | true =>
            rw [injCountF_empty code sf opts ls fuel hp hm hj ha] at hcount
            rw [scanLoopF_empty code sf opts ls fuel l acc hp hm hj ha]
            rw [ih (p + m.len) (p + m.len) (acc ++ listSlice code l (p + m.len))
              (le_refl _) (by omega) hcount]
            rw [List.append_assoc, listSlice_append_drop (by omega)]
          | false =>
            rw [injCountF_inject code sf opts ls fuel hp hm hj ha] at hcount
            omega

theorem scan_len (code sf : List Char) (opts : TransformOpts) (ls : List Nat) :
    ∀ (fuel p lastIndex : Nat) (acc : List Char),
      lastIndex ≤ p → lastIndex ≤ code.length →
      (scanLoopF code sf opts ls fuel p lastIndex acc).length =
        acc.length + (code.length - lastIndex) + injLenF code sf opts ls fuel p := by
  intro fuel
  induction fuel with
  | zero =>
    intro p l acc _ _
    simp only [scanLoopF_zero, injLenF_zero, List.length_append, List.length_drop]
    omega
  | succ fuel ih =>
    intro p l acc hlp hllen
    by_cases hp : code.length < p
    · rw [scanLoopF_flush code sf opts ls fuel l acc hp,
        injLenF_flush code sf opts ls fuel hp]
      simp only [List.length_append, List.length_drop]
      omega
    · cases hm : matchAt code p with
      | none =>
        rw [scanLoopF_miss code sf opts ls fuel l acc hp hm,
          injLenF_miss code sf opts ls fuel hp hm]
        exact ih (p + 1) l acc (by omega) hllen
      | some m =>
        obtain ⟨hp1, hp2, hp3⟩ := matchAt_bounds hm
        cases hj : isLikelyJsx code p with
        | false =>
          rw [scanLoopF_skip code sf opts ls fuel l acc hp hm hj,
            injLenF_skip code sf opts ls fuel hp hm hj]
          exact ih (p + m.len) l acc (by omega) hllen
        | true =>
          cases ha : (buildAttrs opts sf m.tagName
              (getLineCol ls p).1 (getLineCol ls p).2).isEmpty with
          | true =>
            rw [scanLoopF_empty code sf opts ls fuel l acc hp hm hj ha,
              injLenF_empty code sf opts ls fuel hp hm hj ha]
            rw [ih (p + m.len) (p + m.len) (acc ++ listSlice code l (p + m.len))
              (le_refl _) (by omega)]
            rw [List.length_append, listSlice_length (by omega) (by omega)]
            omega
          | false =>
            rw [scanLoopF_inject code sf opts ls fuel l acc hp hm hj ha,
              injLenF_inject code sf opts ls fuel hp hm hj ha]
            rw [ih (p + m.len) (p + m.len) _ (le_refl _) (by omega)]
            have hml : m.len = m.lead.length + m.tagName.length + m.tail.length := rfl
            simp only [List.length_append,
              listSlice_length (show l ≤ p by omega) (show p ≤ code.length by omega)]
            omega

theorem count_le_len (code sf : List Char) (opts : TransformOpts) (ls : List Nat) :
    ∀ (fuel p : Nat),
      injCountF code sf opts ls fuel p ≤ injLenF code sf opts ls fuel p := by
  intro fuel
  induction fuel with
  | zero =>
    intro p
    exact le_refl 0
  | succ fuel ih =>
    intro p
    by_cases hp : code.length < p
    · rw [injCountF_flush code sf opts ls fuel hp, injLenF_flush code sf opts ls fuel hp]
    · cases hm : matchAt code p with
      | none =>
        rw [injCountF_miss code sf opts ls fuel hp hm, injLenF_miss code sf opts ls fuel hp hm]
        exact ih (p + 1)
      | some m =>
        cases hj : isLikelyJsx code p with
        | false =>
          rw [injCountF_skip code sf opts ls fuel hp hm hj,
            injLenF_skip code sf opts ls fuel hp hm hj]
          exact ih (p + m.len)
        | true =>
          cases ha : (buildAttrs opts sf m.tagName
              (getLineCol ls p).1 (getLineCol ls p).2).isEmpty with
          | true =>
            rw [injCountF_empty code sf opts ls fuel hp hm hj ha,
              injLenF_empty code sf opts ls fuel hp hm hj ha]
            exact ih (p + m.len)
          | false =>
            rw [injCountF_inject code sf opts ls fuel hp hm hj ha,
              injLenF_inject code sf opts ls fuel hp hm hj ha]
            have := ih (p + m.len)
            simp only [List.length_cons]
            omega

theorem transformJsx_eq (code fileId : String) (opts : TransformOpts) :
    transformJsx code fileId opts =
      String.mk (scanLoopF code.data (shortFileOf fileId.data) opts
        (lineStarts code.data) (code.data.length + 2) 0 0 []) := rfl

theorem injectionCount_eq (code fileId : String) (opts : TransformOpts) :
    injectionCount code fileId opts =
      injCountF code.data (shortFileOf fileId.data) opts
        (lineStarts code.data) (code.data.length + 2) 0 := rfl

/-- C7: a file whose scan confirms zero injection sites comes back from
`transformJsx` byte-identical, and the plugin's `transform` hook then
returns the `null` "unchanged" signal (never a changed-to-identical
text); with at least one injection, the output differs from the input
and the hook returns the transformed text.  The spec's example file
`const x: Accessor<boolean> = () => true;` has zero sites and yields
`null`. -/
theorem c7_unchanged_signal :
    (∀ (code fileId : String) (opts : TransformOpts),
      injectionCount code fileId opts = 0 → transformJsx code fileId opts = code) ∧
    (∀ (code fileId : String) (opts : TransformOpts),
      0 < injectionCount code fileId opts → transformJsx code fileId opts ≠ code) ∧
    (∀ (projectRoot id code : String) (opts : TransformOpts),
      jsxFileTest id = true →
      hasSubList (String.data "node_modules") id.data = false →
      pluginTransform true projectRoot opts code id =
        (if transformJsx code (relPath projectRoot id) opts = code then none
         else some (transformJsx code (relPath projectRoot id) opts))) ∧
    pluginTransform true "/proj" ⟨true, true⟩
        "const x: Accessor<boolean> = () => true;" "/proj/App.tsx" = none ∧
    injectionCount "const x: Accessor<boolean> = () => true;" "App.tsx" ⟨true, true⟩ = 0 := by
  refine ⟨?_, ?_, ?_, by decide, by decide⟩
  · intro code fileId opts h
    rw [injectionCount_eq] at h
    rw [transformJsx_eq]
    rw [scan_noinj _ _ _ _ _ 0 0 [] (le_refl 0) (Nat.zero_le _) h]
    simp only [List.nil_append, List.drop_zero]
  · intro code fileId opts h heq
    rw [injectionCount_eq] at h
    rw [transformJsx_eq] at heq
    have hdata : scanLoopF code.data (shortFileOf fileId.data) opts
        (lineStarts code.data) (code.data.length + 2) 0 0 [] = code.data :=
      congrArg String.data heq
    have hlen := congrArg List.length hdata
    rw [scan_len _ _ _ _ _ 0 0 [] (le_refl 0) (Nat.zero_le _)] at hlen
    have hle := count_le_len code.data (shortFileOf fileId.data) opts
      (lineStarts code.data) (code.data.length + 2) 0
    simp only [List.length_nil] at hlen
    omega
  · intro projectRoot id code opts hjsx hnm
    rw [pluginTransform]
    simp only [hjsx, hnm, Bool.not_true, Bool.not_false]
    rfl

/-- Witness for C7 at a zero-injection file, a one-injection file, and a
hook invocation. -/
theorem c7_unchanged_signal_witness :
    transformJsx "const x: Accessor<boolean> = () => true;" "App.tsx" ⟨true, true⟩ =
      "const x: Accessor<boolean> = () => true;" ∧
    transformJsx "<Foo />" "f.tsx" ⟨true, true⟩ ≠ "<Foo />" ∧
    pluginTransform true "/proj" ⟨true, true⟩ "<Foo />" "/proj/App.tsx" =
      (if transformJsx "<Foo />" (relPath "/proj" "/proj/App.tsx") ⟨true, true⟩ = "<Foo />"
       then none
       else some (transformJsx "<Foo />" (relPath "/proj" "/proj/App.tsx") ⟨true, true⟩)) :=
  ⟨c7_unchanged_signal.1 _ _ _ (by decide),
   c7_unchanged_signal.2.1 _ _ _ (by decide),
   c7_unchanged_signal.2.2.1 _ _ _ _ (by decide) (by decide)⟩

end SolidGrab
